import Mathlib

/-! # People detector: detection-to-actuation bridge

Shallow embedding of `src/main.cpp`.  The program reads frames, runs a
detector, and on a detection of class 14 above a confidence threshold starts a
worker thread (`hardware_worker`) that toggles pin 13 of a Firmata device,
guarded by the global boolean `hardware_flag`.

Modelling conventions.

* The detector's `float` scores are values of an arbitrary linearly ordered
  type `α` (IEEE NaN is outside the model).  The detector itself, the camera
  and the drawing primitives are environment inputs or logged actions.
* Global variables (`hardware_flag`, `f`) and the set of live worker threads
  are fields of an explicit state `Sys`; every observable library call is
  appended to `Sys.trace`.
* The Firmata/serial library is not part of the repository sources; the outcome
  of each of its calls is a parameter (`Attempt`, `Link`, `FrameInput.ready`).
-/

namespace PeopleDetector

/-! ## Constants (lines 15-16) -/

def PERSON_CLASS : Nat := 14
def SLEEP_TIME : Nat := 5

/-- Index of the first class score in a detection row (line 186). -/
def probability_index : Nat := 5

/-! ## Data model -/

/-- The Firmata object bound to the serial port it was opened on. -/
structure Handle where
  port : String
  deriving DecidableEq, Repr

/-- Exceptions of the Firmata library that the program catches. -/
inductive LinkError
  | IOException
  | NotOpenException
  deriving DecidableEq, Repr

/-- Observable library calls, in program order. -/
inductive Action
  | print_port (port : String)
  | open_serial (port : String)
  | new_firmata (port : String)
  | print_what (e : LinkError)
  | delete_f
  | print_error
  | print_usage
  | load_failure
  | capture_failure
  | put_status (busy : Bool)
  | draw (row : Nat)
  | pthread_create
  | imshow
  | waitKey
  | cap_release
  | destroyAllWindows
  | pthread_join
  | setSamplingInterval (ms : Nat)
  | pinMode (pin : Nat)
  | parse
  | digitalRead (pin : Nat)
  | digitalWrite (pin : Nat) (high : Bool)
  | sleep (seconds : Nat)
  | set_hardware_flag
  deriving DecidableEq, Repr

/-- Progress of a worker thread running `hardware_worker`. -/
inductive Task
  | started
  | cooldown
  deriving DecidableEq, Repr

/-- Where the main thread is. -/
inductive MainPhase
  | looping
  | afterLoop
  | returned
  deriving DecidableEq, Repr

/-- Global state of the process. -/
structure Sys where
  hardware_flag : Bool
  f : Option Handle
  workers : List Task
  phase : MainPhase
  crashed : Bool
  trace : List Action
  deriving DecidableEq, Repr

/-- Number of `pthread_create` calls so far: the actuation requests emitted. -/
def requests (s : Sys) : Nat := s.trace.count Action.pthread_create

/-- Number of completed tasks so far: executions of line 281. -/
def completions (s : Sys) : Nat := s.trace.count Action.set_hardware_flag

section Detection

variable {α : Type} [LinearOrder α]

/-- Loop of `std::max_element` after the first element: `best` is the index of
the largest element so far, `i` the index of the head of the remaining range. -/
def max_element_loop (best : Nat) (bestVal : α) : Nat → List α → Nat
  | _, [] => best
  | i, x :: xs =>
    if bestVal < x then max_element_loop i x (i + 1) xs
    else max_element_loop best bestVal (i + 1) xs

/-- Offset returned by `std::max_element(first, last) - first`; on an empty
range the algorithm returns `first`. -/
def max_element : List α → Nat
  | [] => 0
  | x :: xs => max_element_loop 0 x 1 xs

/-- The class scores of a row: columns `probability_index ..` (lines 186-188). -/
def probs (row : List α) : List α := row.drop probability_index

/-- Line 190. -/
def objectClass (row : List α) : Nat := max_element (probs row)

/-- Line 191: the read of column `objectClass + probability_index`; `none` when
that column is outside the row. -/
def confidence (row : List α) : Option α := row[objectClass row + probability_index]?

/-- Condition of line 193. -/
def qualifies (thr : α) (row : List α) : Bool :=
  objectClass row == PERSON_CLASS &&
    (match confidence row with
     | some c => decide (thr < c)
     | none => false)

/-- Lines 226-229. -/
def trigger (s : Sys) : Sys :=
  if s.hardware_flag then
    { s with hardware_flag := false
             workers := s.workers ++ [Task.started]
             trace := s.trace ++ [Action.pthread_create] }
  else s

/-- Body of the row loop for row `i` (lines 186-230). -/
def processRow (thr : α) (s : Sys) (i : Nat) (row : List α) : Sys :=
  if qualifies thr row then trigger { s with trace := s.trace ++ [Action.draw i] }
  else s

/-- The row loop from row index `i` on. -/
def detectLoop (thr : α) : List (List α) → Nat → Sys → Sys
  | [], _, s => s
  | row :: rest, i, s => detectLoop thr rest (i + 1) (processRow thr s i row)

/-- Frame step: the whole row loop of one frame (lines 185-231). -/
def detect (thr : α) (rows : List (List α)) (s : Sys) : Sys := detectLoop thr rows 0 s

/-- Frame steps over consecutive frames with no worker step in between. -/
def detectAll (thr : α) (frames : List (List (List α))) (s : Sys) : Sys :=
  frames.foldl (fun acc rows => detect thr rows acc) s

/-- Specification of "class id": `k` is the first index at which the list
takes its maximum value `c`. -/
def IsFirstMax (xs : List α) (k : Nat) (c : α) : Prop :=
  xs[k]? = some c ∧ (∀ x ∈ xs, x ≤ c) ∧ ∀ j, j < k → ∀ y, xs[j]? = some y → y < c

/-- Specification of a qualifying detection row: its class id, the first index
of the maximum class score, is the target class, and that score, its
confidence, is strictly greater than the threshold. -/
def Qualifying (thr : α) (row : List α) : Prop :=
  ∃ c, IsFirstMax (probs row) PERSON_CLASS c ∧ thr < c

end Detection

/-! ## The actuation task: `hardware_worker` (lines 251-282) -/

/-- Behaviour of the actuator link during one task: the outcome of the `k`-th
call made on the Firmata object (`k = 0, 1, ...`), either the value returned or
the exception thrown. -/
abbrev Link := Nat → Except LinkError Nat

/-- One call on the Firmata object: it is logged, counted, and its outcome is
the one the link prescribes.  The pair is (calls made so far, log). -/
def call (link : Link) (a : Action) (w : Nat × List Action) :
    Except LinkError Nat × (Nat × List Action) :=
  (link w.1, (w.1 + 1, w.2 ++ [a]))

/-- The `for` loop of lines 262-267 with `n` iterations left; the first
component is the exception that left the loop, if any. -/
def toggleLoop (link : Link) : Nat → Nat × List Action → Option LinkError × (Nat × List Action)
  | 0, w => (none, w)
  | n + 1, w =>
    match call link Action.parse w with
    | (Except.error e, w1) => (some e, w1)
    | (Except.ok _, w1) =>
      match call link (Action.digitalRead 13) w1 with
      | (Except.error e, w2) => (some e, w2)
      | (Except.ok a0, w2) =>
        match call link (Action.digitalWrite 13 (a0 == 0)) w2 with
        | (Except.error e, w3) => (some e, w3)
        | (Except.ok _, w3) => toggleLoop link n (w3.1, w3.2 ++ [Action.sleep 1])

/-- The `try` block (lines 253-268): the exception thrown, if any, and the
calls made. -/
def tryBlock (link : Link) : Option LinkError × List Action :=
  match call link (Action.setSamplingInterval 100) (0, []) with
  | (Except.error e, w1) => (some e, w1.2)
  | (Except.ok _, w1) =>
    match call link (Action.pinMode 13) w1 with
    | (Except.error e, w2) => (some e, w2.2)
    | (Except.ok _, w2) =>
      let r := toggleLoop link 6 w2
      (r.1, r.2.2)

/-- Lines 253-278 run by worker `k`: the `try` block and its two handlers.
With `f == NULL` the first statement dereferences a null pointer. -/
def workerBody (link : Link) (k : Nat) (s : Sys) : Sys :=
  match s.f with
  | none => { s with crashed := true }
  | some _ =>
    match tryBlock link with
    | (none, tr) =>
      { s with workers := s.workers.set k Task.cooldown
               trace := s.trace ++ tr }
    | (some e, tr) =>
      { s with f := none
               workers := s.workers.set k Task.cooldown
               trace := s.trace ++ tr ++ [Action.print_what e, Action.delete_f] }

/-- Lines 280-282 run by worker `k`: cooldown, then the flag is set and the
thread ends. -/
def workerFinish (k : Nat) (s : Sys) : Sys :=
  { s with hardware_flag := true
           workers := s.workers.eraseIdx k
           trace := s.trace ++ [Action.sleep SLEEP_TIME, Action.set_hardware_flag] }

/-- What the environment supplies to one loop iteration. -/
structure FrameInput (α : Type) where
  /-- Detection rows of the frame, `none` when `frame.empty()`. -/
  frame : Option (List (List α))
  /-- Result of `waitKey(1)`. -/
  key : Int
  /-- Result of `f->ready()` at line 235, when it is evaluated. -/
  ready : Bool

section Loop

variable {α : Type} [LinearOrder α]

/-- One iteration of the `for(;;)` loop (lines 145-236). -/
def iteration (thr : α) (inp : FrameInput α) (s : Sys) : Sys :=
  match inp.frame with
  | none => { s with phase := MainPhase.afterLoop, trace := s.trace ++ [Action.waitKey] }
  | some rows =>
    let s1 := { s with trace := s.trace ++ [Action.put_status (!s.hardware_flag)] }
    let s2 := detect thr rows s1
    let s3 := { s2 with trace := s2.trace ++ [Action.imshow, Action.waitKey] }
    if inp.key = 27 then { s3 with phase := MainPhase.afterLoop }
    else if s3.f.isNone || !inp.ready then { s3 with phase := MainPhase.afterLoop }
    else s3

/-- Lines 238-248: what `main` does after the loop.  `pthread_join` is logged
where it is called. -/
def shutdown (s : Sys) : Sys :=
  let s1 := if s.f.isSome then { s with f := none, trace := s.trace ++ [Action.delete_f] } else s
  let s2 := { s1 with trace := s1.trace ++ [Action.cap_release, Action.destroyAllWindows] }
  let s3 := if !s2.hardware_flag then { s2 with trace := s2.trace ++ [Action.pthread_join] } else s2
  { s3 with phase := MainPhase.returned }

/-- Steps of the two threads. -/
inductive Ev (α : Type)
  | frame (inp : FrameInput α)
  | body (k : Nat) (link : Link)
  | finish (k : Nat)
  | shutdown

/-- One step of the process; `none` when the step is not enabled. -/
def step (thr : α) (e : Ev α) (s : Sys) : Option Sys :=
  if s.crashed then none
  else
    match e with
    | Ev.frame inp => if s.phase = MainPhase.looping then some (iteration thr inp s) else none
    | Ev.body k link =>
      if s.workers[k]? = some Task.started then some (workerBody link k s) else none
    | Ev.finish k =>
      if s.workers[k]? = some Task.cooldown then some (workerFinish k s) else none
    | Ev.shutdown => if s.phase = MainPhase.afterLoop then some (shutdown s) else none

/-- A schedule of steps. -/
def run (thr : α) : List (Ev α) → Sys → Option Sys
  | [], s => some s
  | e :: es, s =>
    match step thr e s with
    | none => none
    | some s1 => run thr es s1

end Loop

/-- State at loop entry: gate idle, no task, handle `h`; the log of the loop
starts empty. -/
def init (h : Handle) : Sys :=
  { hardware_flag := true, f := some h, workers := [], phase := MainPhase.looping,
    crashed := false, trace := [] }

/-- States the process can be in after loop entry. -/
def Reachable {α : Type} [LinearOrder α] (thr : α) (s : Sys) : Prop :=
  ∃ (h : Handle) (evs : List (Ev α)), run thr evs (init h) = some s

/-! ## Startup (lines 51-132) -/

/-- What the serial/Firmata library does when the program opens a port. -/
inductive Attempt
  /-- The call `new FirmSerial` throws. -/
  | open_throws (e : LinkError)
  /-- The call `serialio->available()` returns false. -/
  | unavailable
  /-- The call `new Firmata` throws. -/
  | firmata_throws (e : LinkError)
  /-- The object is built; `ready` is what its `ready()` returns (lines 75, 80). -/
  | connected (ready : Bool)
  deriving DecidableEq, Repr

/-- Entry of `ports` together with the behaviour of the device behind it. -/
structure Candidate where
  port : String
  attempt : Attempt
  deriving DecidableEq, Repr

/-- Search of `std::string::find`: position of the first occurrence of `pat` in
`s`, positions counted from `i`. -/
def find (pat : List Char) : List Char → Nat → Option Nat
  | [], i => if pat.isPrefixOf [] then some i else none
  | c :: cs, i => if pat.isPrefixOf (c :: cs) then some i else find pat cs (i + 1)

/-- Negation of the test of line 57. -/
def containsACM (port : String) : Bool := (find "ACM".toList port.toList 0).isSome

/-- Variables of the port scan: `f`, what `f->ready()` returns, the log. -/
structure Scan where
  f : Option Handle
  ready : Bool
  trace : List Action
  deriving DecidableEq, Repr

/-- Lines 58-74, entered with `f == NULL`. -/
def connect (c : Candidate) (tr : List Action) : Scan :=
  match c.attempt with
  | Attempt.open_throws e =>
    ⟨none, false, tr ++ [Action.print_port c.port, Action.open_serial c.port, Action.print_what e]⟩
  | Attempt.unavailable =>
    ⟨none, false, tr ++ [Action.print_port c.port, Action.open_serial c.port]⟩
  | Attempt.firmata_throws e =>
    ⟨none, false, tr ++ [Action.print_port c.port, Action.open_serial c.port, Action.sleep 3,
      Action.new_firmata c.port, Action.print_what e]⟩
  | Attempt.connected r =>
    ⟨some ⟨c.port⟩, r, tr ++ [Action.print_port c.port, Action.open_serial c.port, Action.sleep 3,
      Action.new_firmata c.port, Action.sleep 1]⟩

/-- The loop of lines 51-78. -/
def scanPorts : List Candidate → Scan → Scan
  | [], sc => sc
  | c :: rest, sc =>
    let sc1 : Scan := if sc.f.isSome then ⟨none, false, sc.trace ++ [Action.delete_f]⟩ else sc
    if !containsACM c.port then scanPorts rest sc1
    else
      let sc2 := connect c sc1.trace
      if sc2.f.isSome && sc2.ready then sc2 else scanPorts rest sc2

/-- Everything `main` depends on before the frame loop. -/
structure Invocation where
  ports : List Candidate
  help : Bool
  /-- Whether `net.empty()` holds after loading the model. -/
  net_empty : Bool
  /-- Whether `cap.isOpened()` holds. -/
  cap_opened : Bool

/-- How the part of `main` before the loop ends. -/
inductive Setup
  | exit (code : Int) (trace : List Action)
  | enter (trace : List Action) (s : Sys)
  deriving DecidableEq, Repr

/-- Lines 51-132. -/
def setup (inv : Invocation) : Setup :=
  let sc := scanPorts inv.ports ⟨none, false, []⟩
  match sc.f with
  | none => Setup.exit 1 (sc.trace ++ [Action.print_error])
  | some h =>
    if !sc.ready then Setup.exit 1 (sc.trace ++ [Action.print_error])
    else if inv.help then Setup.exit 0 (sc.trace ++ [Action.print_usage])
    else if inv.net_empty then Setup.exit (-1) (sc.trace ++ [Action.load_failure])
    else if !inv.cap_opened then Setup.exit (-1) (sc.trace ++ [Action.capture_failure])
    else Setup.enter sc.trace (init h)

/-- Ports on which `new FirmSerial` was called, in call order. -/
def opened (tr : List Action) : List String :=
  tr.filterMap (fun a => match a with
    | Action.open_serial p => some p
    | _ => none)

/-- Specification of "yields a ready connection" for a port the scan opens. -/
def yieldsReady (c : Candidate) : Bool :=
  containsACM c.port && decide (c.attempt = Attempt.connected true)

/-- Calls a worker makes inside its `try` block. -/
def linkAction : Action → Bool
  | Action.setSamplingInterval _ => true
  | Action.pinMode _ => true
  | Action.parse => true
  | Action.digitalRead _ => true
  | Action.digitalWrite _ _ => true
  | Action.sleep _ => true
  | _ => false

/-- Calls made by the port scan. -/
def scanAction : Action → Bool
  | Action.print_port _ => true
  | Action.open_serial _ => true
  | Action.new_firmata _ => true
  | Action.print_what _ => true
  | Action.delete_f => true
  | Action.sleep _ => true
  | _ => false

/-- State of the scan after lines 52-55. -/
def dropped (sc : Scan) : Scan :=
  if sc.f.isSome then ⟨none, false, sc.trace ++ [Action.delete_f]⟩ else sc

/-- At most one task is live, the live tasks are the requests not yet
completed, and the gate is busy exactly when a task is live. -/
def GateInv (s : Sys) : Prop :=
  s.workers.length ≤ 1 ∧ s.workers.length + completions s = requests s ∧
    (s.hardware_flag = false ↔ s.workers.length = 1)

/-! ## Concrete inputs -/

/-- Handle on the first ACM port. -/
def acm0 : Handle := ⟨"/dev/ttyACM0"⟩

/-- Detection row of 5 + 15 columns: box (0.5, 0.5, 0.2, 0.3), objectness 1,
class 14 with score 0.9, all other classes 0. -/
def personRow : List ℚ :=
  [1/2, 1/2, 1/5, 3/10, 1, 0, 0, 0, 0, 0, 0, 0, 0, 0, 0, 0, 0, 0, 0, 9/10]

/-- Detection row of 5 + 15 columns whose best class is 3 with score 0.99. -/
def wrongClassRow : List ℚ :=
  [1/2, 1/2, 1/5, 3/10, 1, 0, 0, 0, 99/100, 0, 0, 0, 0, 0, 0, 0, 0, 0, 0, 0]

/-- A frame showing one person; `key` is what `waitKey(1)` returns. -/
def personFrame (key : Int) : FrameInput ℚ := ⟨some [personRow], key, true⟩

/-- A link on which every call succeeds and reads return 0. -/
def healthy : Link := fun _ => Except.ok 0

/-- A link whose `n`-th call throws `e`. -/
def failAt (n : Nat) (e : LinkError) : Link :=
  fun k => if k = n then Except.error e else Except.ok 0

/-- Gate busy with one task just started. -/
def busyState : Sys :=
  { hardware_flag := false, f := some acm0, workers := [Task.started],
    phase := MainPhase.looping, crashed := false, trace := [Action.pthread_create] }

/-- Loop left by the exit key in the iteration that started a task. -/
def escPressed : Sys :=
  { hardware_flag := false, f := some acm0, workers := [Task.started],
    phase := MainPhase.afterLoop, crashed := false,
    trace := [Action.put_status false, Action.draw 0, Action.pthread_create, Action.imshow,
      Action.waitKey] }

/-- Gate idle after the handle was discarded by a failed task. -/
def lostIdle : Sys :=
  { hardware_flag := true, f := none, workers := [], phase := MainPhase.looping,
    crashed := false,
    trace := [Action.put_status false, Action.draw 0, Action.pthread_create, Action.imshow,
      Action.waitKey, Action.setSamplingInterval 100,
      Action.print_what LinkError.IOException, Action.delete_f,
      Action.sleep 5, Action.set_hardware_flag] }

/-- Ports of a machine with one serial console and two ACM devices, the first
of which is not ready. -/
def examplePorts : List Candidate :=
  [⟨"/dev/ttyS0", Attempt.connected true⟩, ⟨"/dev/ttyACM0", Attempt.connected false⟩,
   ⟨"/dev/ttyACM1", Attempt.connected true⟩, ⟨"/dev/ttyACM2", Attempt.connected true⟩]

/-! ## Lemmas on the detection loop -/

section DetectionLemmas

variable {α : Type} [LinearOrder α]

theorem max_element_loop_spec (xs : List α) :
    ∀ (pre : List α) (best : Nat) (bestVal : α), pre[best]? = some bestVal →
      (∀ x ∈ pre, x ≤ bestVal) →
      (∀ j, j < best → ∀ y, pre[j]? = some y → y < bestVal) →
      ∃ c, IsFirstMax (pre ++ xs) (max_element_loop best bestVal pre.length xs) c := by
  induction xs with
  | nil =>
    intro pre best bestVal hbest hmax hfirst
    exact ⟨bestVal, by simpa [max_element_loop] using hbest, by simpa using hmax,
      by simpa using hfirst⟩
  | cons x xs ih =>
    intro pre best bestVal hbest hmax hfirst
    have hlt : best < pre.length := by
      rcases List.getElem?_eq_some.1 hbest with ⟨h, _⟩
      exact h
    have happ : pre ++ x :: xs = (pre ++ [x]) ++ xs := by simp
    have hlen : pre.length + 1 = (pre ++ [x]).length := by simp
    unfold max_element_loop
    split
    · rename_i hx
      rw [happ, hlen]
      have h := ih (pre ++ [x]) pre.length x (by simp)
        (by
          intro y hy
          rcases List.mem_append.1 hy with hy | hy
          · exact le_trans (hmax y hy) (le_of_lt hx)
          · simp at hy
            simp [hy])
        (by
          intro j hj y hy
          rw [List.getElem?_append_left hj] at hy
          have hmem : y ∈ pre := List.getElem?_mem hy
          exact lt_of_le_of_lt (hmax y hmem) hx)
      simpa using h
    · rename_i hx
      rw [happ, hlen]
      have h := ih (pre ++ [x]) best bestVal
        (by rw [List.getElem?_append_left hlt]; exact hbest)
        (by
          intro y hy
          rcases List.mem_append.1 hy with hy | hy
          · exact hmax y hy
          · simp at hy
            rw [hy]
            exact le_of_not_lt hx)
        (by
          intro j hj y hy
          rw [List.getElem?_append_left (lt_trans hj hlt)] at hy
          exact hfirst j hj y hy)
      simpa using h

/-- On a non-empty range `max_element` returns the first index of the maximum. -/
theorem max_element_spec (x : α) (xs : List α) :
    ∃ c, IsFirstMax (x :: xs) (max_element (x :: xs)) c := by
  have h := max_element_loop_spec xs [x] 0 x (by simp) (by simp) (by simp)
  simpa [max_element] using h

/-- The first index of the maximum is unique. -/
theorem IsFirstMax_unique (xs : List α) (k k' : Nat) (c c' : α)
    (h : IsFirstMax xs k c) (h' : IsFirstMax xs k' c') : k = k' ∧ c = c' := by
  obtain ⟨hk, hmax, hfirst⟩ := h
  obtain ⟨hk', hmax', hfirst'⟩ := h'
  have hc : c = c' :=
    le_antisymm (hmax' c (List.getElem?_mem hk)) (hmax c' (List.getElem?_mem hk'))
  refine ⟨?_, hc⟩
  rcases lt_trichotomy k k' with hlt | heq | hgt
  · exact absurd (hfirst' k hlt c hk) (by rw [hc]; exact lt_irrefl _)
  · exact heq
  · exact absurd (hfirst k' hgt c' hk') (by rw [hc]; exact lt_irrefl _)

/-- The class id computed by line 190 is `k` exactly when `k` is the first
index of the maximum class score, provided the row has class scores. -/
theorem objectClass_eq_iff (row : List α) (k : Nat) (hne : probs row ≠ []) :
    objectClass row = k ↔ ∃ c, IsFirstMax (probs row) k c := by
  unfold objectClass
  cases hp : probs row with
  | nil => exact absurd hp hne
  | cons x xs =>
    obtain ⟨c, hc⟩ := max_element_spec x xs
    constructor
    · intro h
      exact ⟨c, h ▸ hc⟩
    · rintro ⟨c', hc'⟩
      exact (IsFirstMax_unique _ _ _ _ _ hc hc').1

/-- The test of line 193 holds exactly for the rows that qualify. -/
theorem qualifies_iff (thr : α) (row : List α) :
    qualifies thr row = true ↔ Qualifying thr row := by
  have hget : ∀ k, row[k + probability_index]? = (probs row)[k]? := by
    intro k
    simp [probs, List.getElem?_drop, Nat.add_comm]
  constructor
  · intro h
    simp only [qualifies, Bool.and_eq_true, beq_iff_eq] at h
    obtain ⟨hcls, hconf⟩ := h
    have hne : probs row ≠ [] := by
      intro hnil
      simp [objectClass, hnil, max_element, PERSON_CLASS] at hcls
    obtain ⟨c, hc⟩ := (objectClass_eq_iff row PERSON_CLASS hne).1 hcls
    refine ⟨c, hc, ?_⟩
    have hcf : confidence row = some c := by
      unfold confidence
      rw [hcls, hget]
      exact hc.1
    simpa [hcf] using hconf
  · rintro ⟨c, hc, hthr⟩
    have hne : probs row ≠ [] := by
      intro hnil
      have := hc.1
      simp [hnil] at this
    have hcls : objectClass row = PERSON_CLASS := (objectClass_eq_iff row PERSON_CLASS hne).2 ⟨c, hc⟩
    have hcf : confidence row = some c := by
      unfold confidence
      rw [hcls, hget]
      exact hc.1
    simp [qualifies, hcls, hcf, hthr]

theorem trigger_busy (s : Sys) (h : s.hardware_flag = false) : trigger s = s := by
  simp [trigger, h]

theorem processRow_busy (thr : α) (s : Sys) (i : Nat) (row : List α)
    (h : s.hardware_flag = false) :
    (processRow thr s i row).hardware_flag = false ∧
      (processRow thr s i row).workers = s.workers ∧
      requests (processRow thr s i row) = requests s ∧
      completions (processRow thr s i row) = completions s := by
  unfold processRow
  split
  · rw [trigger_busy _ (by simpa using h)]
    simp [requests, completions, h, List.count_append]
  · simp [h]

theorem detectLoop_busy (thr : α) (rows : List (List α)) :
    ∀ (i : Nat) (s : Sys), s.hardware_flag = false →
      (detectLoop thr rows i s).hardware_flag = false ∧
      (detectLoop thr rows i s).workers = s.workers ∧
      requests (detectLoop thr rows i s) = requests s ∧
      completions (detectLoop thr rows i s) = completions s := by
  induction rows with
  | nil => intro i s h; simp [detectLoop, h]
  | cons row rest ih =>
    intro i s h
    obtain ⟨h1, h2, h3, h4⟩ := processRow_busy thr s i row h
    obtain ⟨g1, g2, g3, g4⟩ := ih (i + 1) _ h1
    simp only [detectLoop]
    exact ⟨g1, g2.trans h2, g3.trans h3, g4.trans h4⟩

theorem detectLoop_none (thr : α) (rows : List (List α)) :
    ∀ (i : Nat) (s : Sys), (∀ row ∈ rows, qualifies thr row = false) →
      detectLoop thr rows i s = s := by
  induction rows with
  | nil => intro i s _; rfl
  | cons row rest ih =>
    intro i s h
    have hrow : qualifies thr row = false := h row (List.mem_cons_self _ _)
    simp only [detectLoop, processRow, hrow]
    exact ih (i + 1) s (fun r hr => h r (List.mem_cons_of_mem _ hr))

theorem detectLoop_idle (thr : α) (rows : List (List α)) :
    ∀ (i : Nat) (s : Sys), s.hardware_flag = true → (∃ row ∈ rows, qualifies thr row = true) →
      (detectLoop thr rows i s).hardware_flag = false ∧
      (detectLoop thr rows i s).workers = s.workers ++ [Task.started] ∧
      requests (detectLoop thr rows i s) = requests s + 1 ∧
      completions (detectLoop thr rows i s) = completions s := by
  induction rows with
  | nil => intro i s _ h; simp at h
  | cons row rest ih =>
    intro i s hs h
    cases hrow : qualifies thr row with
    | true =>
      have hp : (processRow thr s i row).hardware_flag = false ∧
          (processRow thr s i row).workers = s.workers ++ [Task.started] ∧
          requests (processRow thr s i row) = requests s + 1 ∧
          completions (processRow thr s i row) = completions s := by
        simp [processRow, hrow, trigger, hs, requests, completions, List.count_append]
      obtain ⟨h1, h2, h3, h4⟩ := hp
      obtain ⟨g1, g2, g3, g4⟩ := detectLoop_busy thr rest (i + 1) _ h1
      simp only [detectLoop]
      exact ⟨g1, g2.trans h2, g3.trans h3, g4.trans h4⟩
    | false =>
      have hrest : ∃ r ∈ rest, qualifies thr r = true := by
        obtain ⟨r, hr, hq⟩ := h
        rcases List.mem_cons.1 hr with rfl | hr
        · rw [hrow] at hq; exact absurd hq (by simp)
        · exact ⟨r, hr, hq⟩
      simp only [detectLoop, processRow, hrow]
      exact ih (i + 1) s hs hrest

end DetectionLemmas

/-! ## Lemmas on the actuation task -/

theorem toggleLoop_trace (link : Link) (n : Nat) :
    ∀ w : Nat × List Action, (∀ a ∈ w.2, linkAction a = true) →
      ∀ a ∈ (toggleLoop link n w).2.2, linkAction a = true := by
  induction n with
  | zero => intro w hw; simpa [toggleLoop] using hw
  | succ n ih =>
    intro w hw
    unfold toggleLoop
    simp only [call]
    cases h1 : link w.1 with
    | error e =>
      intro a ha
      simp only [List.mem_append, List.mem_singleton] at ha
      rcases ha with ha | rfl
      · exact hw a ha
      · rfl
    | ok v1 =>
      simp only []
      cases h2 : link (w.1 + 1) with
      | error e =>
        intro a ha
        simp only [List.mem_append, List.mem_singleton] at ha
        rcases ha with (ha | rfl) | rfl
        · exact hw a ha
        · rfl
        · rfl
      | ok a0 =>
        simp only []
        cases h3 : link (w.1 + 1 + 1) with
        | error e =>
          intro a ha
          simp only [List.mem_append, List.mem_singleton] at ha
          rcases ha with ((ha | rfl) | rfl) | rfl
          · exact hw a ha
          · rfl
          · rfl
          · rfl
        | ok v3 =>
          simp only []
          apply ih
          intro a ha
          simp only [List.mem_append, List.mem_singleton] at ha
          rcases ha with (((ha | rfl) | rfl) | rfl) | rfl
          · exact hw a ha
          · rfl
          · rfl
          · rfl
          · rfl

theorem tryBlock_trace (link : Link) : ∀ a ∈ (tryBlock link).2, linkAction a = true := by
  unfold tryBlock
  simp only [call]
  cases h1 : link 0 with
  | error e => intro a ha; simp at ha; rw [ha]; rfl
  | ok v1 =>
    simp only []
    cases h2 : link (0 + 1) with
    | error e =>
      intro a ha
      simp at ha
      rcases ha with rfl | rfl <;> rfl
    | ok v2 =>
      simp only []
      apply toggleLoop_trace
      intro a ha
      simp at ha
      rcases ha with rfl | rfl <;> rfl

theorem count_eq_zero_of_linkAction (tr : List Action) (b : Action)
    (h : ∀ a ∈ tr, linkAction a = true) (hb : linkAction b = false) : tr.count b = 0 := by
  apply List.count_eq_zero.2
  intro hmem
  rw [h b hmem] at hb
  exact absurd hb (by simp)

/-- What the `try` block and its handlers leave behind when `f` is live. -/
theorem workerBody_live (link : Link) (k : Nat) (s : Sys) (h : Handle) (hf : s.f = some h) :
    ∃ body : List Action,
      (workerBody link k s).trace = s.trace ++ body ∧
      body.count Action.pthread_create = 0 ∧
      body.count Action.set_hardware_flag = 0 ∧
      body.count Action.imshow = 0 ∧
      (workerBody link k s).hardware_flag = s.hardware_flag ∧
      (workerBody link k s).workers = s.workers.set k Task.cooldown ∧
      (workerBody link k s).crashed = s.crashed ∧
      (workerBody link k s).phase = s.phase ∧
      ((workerBody link k s).f = some h ∨ (workerBody link k s).f = none) := by
  have htr := tryBlock_trace link
  have c1 := count_eq_zero_of_linkAction _ Action.pthread_create htr rfl
  have c2 := count_eq_zero_of_linkAction _ Action.set_hardware_flag htr rfl
  have c3 := count_eq_zero_of_linkAction _ Action.imshow htr rfl
  unfold workerBody
  rw [hf]
  simp only []
  cases hb : tryBlock link with
  | mk r tr =>
    rw [hb] at c1 c2 c3
    simp only [] at c1 c2 c3
    cases r with
    | none => exact ⟨tr, by simp [c1, c2, c3, hf]⟩
    | some e =>
      refine ⟨tr ++ [Action.print_what e, Action.delete_f], ?_⟩
      simp [c1, c2, c3, List.count_append]

theorem GateInv_congr (s t : Sys) (hf : t.hardware_flag = s.hardware_flag)
    (hw : t.workers = s.workers) (hr : requests t = requests s)
    (hc : completions t = completions s) (h : GateInv s) : GateInv t := by
  unfold GateInv at *
  rw [hf, hw, hr, hc]
  exact h

/-! ## The gate invariant is preserved by every step -/

section LoopLemmas

variable {α : Type} [LinearOrder α]

theorem detectLoop_inv (thr : α) (rows : List (List α)) (i : Nat) (s : Sys) (h : GateInv s) :
    GateInv (detectLoop thr rows i s) := by
  cases hflag : s.hardware_flag with
  | false =>
    obtain ⟨h1, h2, h3, h4⟩ := detectLoop_busy thr rows i s hflag
    exact GateInv_congr s _ (h1.trans hflag.symm) h2 h3 h4 h
  | true =>
    by_cases hq : ∃ row ∈ rows, qualifies thr row = true
    · obtain ⟨h1, h2, h3, h4⟩ := detectLoop_idle thr rows i s hflag hq
      obtain ⟨g1, g2, g3⟩ := h
      have hlen : s.workers.length = 0 := by
        have hne : s.workers.length ≠ 1 := fun h1 => by
          have := g3.2 h1
          rw [hflag] at this
          exact absurd this (by simp)
        omega
      unfold GateInv
      rw [h1, h2, h3, h4]
      simp only [List.length_append, List.length_singleton, hlen]
      refine ⟨by omega, by omega, by simp⟩
    · have hnone : ∀ row ∈ rows, qualifies thr row = false := by
        intro row hrow
        cases hr : qualifies thr row with
        | false => rfl
        | true => exact absurd ⟨row, hrow, hr⟩ hq
      rw [detectLoop_none thr rows i s hnone]
      exact h

/-- The fields of the state after one loop iteration, in terms of the row loop. -/
theorem iteration_eq (thr : α) (inp : FrameInput α) (s : Sys) :
    (inp.frame = none ∧ iteration thr inp s =
        { s with phase := MainPhase.afterLoop, trace := s.trace ++ [Action.waitKey] }) ∨
    ∃ rows ph, inp.frame = some rows ∧
      iteration thr inp s =
        { detect thr rows { s with trace := s.trace ++ [Action.put_status (!s.hardware_flag)] } with
          phase := ph
          trace := (detect thr rows
            { s with trace := s.trace ++ [Action.put_status (!s.hardware_flag)] }).trace ++
              [Action.imshow, Action.waitKey] } := by
  unfold iteration
  cases hfr : inp.frame with
  | none => left; simp
  | some rows =>
    right
    simp only []
    split_ifs
    · exact ⟨rows, MainPhase.afterLoop, rfl, rfl⟩
    · exact ⟨rows, MainPhase.afterLoop, rfl, rfl⟩
    · exact ⟨rows, _, rfl, rfl⟩

theorem detect_inv (thr : α) (rows : List (List α)) (s : Sys) (h : GateInv s) :
    GateInv (detect thr rows s) := detectLoop_inv thr rows 0 s h

theorem iteration_inv (thr : α) (inp : FrameInput α) (s : Sys) (h : GateInv s) :
    GateInv (iteration thr inp s) := by
  rcases iteration_eq thr inp s with ⟨_, he⟩ | ⟨rows, ph, _, he⟩
  · rw [he]
    exact GateInv_congr s _ rfl rfl (by simp [requests, List.count_append])
      (by simp [completions, List.count_append]) h
  · rw [he]
    have h1 : GateInv { s with trace := s.trace ++ [Action.put_status (!s.hardware_flag)] } :=
      GateInv_congr s _ rfl rfl (by simp [requests, List.count_append])
        (by simp [completions, List.count_append]) h
    have h2 := detect_inv thr rows _ h1
    exact GateInv_congr
      (detect thr rows { s with trace := s.trace ++ [Action.put_status (!s.hardware_flag)] }) _
      rfl rfl (by simp [requests, List.count_append])
      (by simp [completions, List.count_append]) h2

theorem shutdown_inv (s : Sys) (h : GateInv s) : GateInv (shutdown s) := by
  apply GateInv_congr s _ _ _ _ _ h
  all_goals
    obtain ⟨flag, f, w, ph, c, tr⟩ := s
    cases flag <;> cases f <;> simp [shutdown, requests, completions, List.count_append]

theorem workerBody_inv (link : Link) (k : Nat) (s : Sys) (h : GateInv s) :
    GateInv (workerBody link k s) := by
  cases hf : s.f with
  | none =>
    have he : workerBody link k s = { s with crashed := true } := by simp [workerBody, hf]
    rw [he]
    exact GateInv_congr s _ rfl rfl rfl rfl h
  | some hd =>
    obtain ⟨body, h1, h2, h3, _, h5, h6, _, _, _⟩ := workerBody_live link k s hd hf
    unfold GateInv at *
    rw [h5, h6]
    simp only [requests, completions, h1, List.count_append, h2, h3, List.length_set]
    simpa [requests, completions] using h

theorem workerFinish_inv (k : Nat) (s : Sys) (hk : s.workers[k]? = some Task.cooldown)
    (h : GateInv s) : GateInv (workerFinish k s) := by
  obtain ⟨g1, g2, g3⟩ := h
  have hlt : k < s.workers.length := (List.getElem?_eq_some.1 hk).1
  have hlen : (s.workers.eraseIdx k).length = 0 := by
    rw [List.length_eraseIdx, if_pos hlt]
    omega
  unfold GateInv workerFinish
  simp only [hlen, requests, completions, List.count_append]
  simp only [requests, completions] at g2
  refine ⟨by omega, ?_, by simp⟩
  simp
  omega

theorem step_inv (thr : α) (e : Ev α) (s t : Sys) (hstep : step thr e s = some t)
    (h : GateInv s) : GateInv t := by
  unfold step at hstep
  by_cases hc : s.crashed = true
  · rw [if_pos hc] at hstep
    exact absurd hstep (by simp)
  · rw [if_neg hc] at hstep
    cases e with
    | frame inp =>
      simp only [] at hstep
      split_ifs at hstep
      cases hstep
      exact iteration_inv thr inp s h
    | body k link =>
      simp only [] at hstep
      split_ifs at hstep
      cases hstep
      exact workerBody_inv link k s h
    | finish k =>
      simp only [] at hstep
      split_ifs at hstep with hk
      cases hstep
      exact workerFinish_inv k s hk h
    | shutdown =>
      simp only [] at hstep
      split_ifs at hstep
      cases hstep
      exact shutdown_inv s h

theorem run_inv (thr : α) (evs : List (Ev α)) :
    ∀ (s t : Sys), run thr evs s = some t → GateInv s → GateInv t := by
  induction evs with
  | nil =>
    intro s t hrun h
    simp only [run, Option.some.injEq] at hrun
    exact hrun ▸ h
  | cons e es ih =>
    intro s t hrun h
    simp only [run] at hrun
    cases hs : step thr e s with
    | none => rw [hs] at hrun; exact absurd hrun (by simp)
    | some s1 =>
      rw [hs] at hrun
      exact ih s1 t hrun (step_inv thr e s s1 hs h)

end LoopLemmas

/-! ## Lemmas on the startup scan -/

theorem opened_append (a b : List Action) : opened (a ++ b) = opened a ++ opened b := by
  simp [opened, List.filterMap_append]

theorem connect_spec (c : Candidate) (tr : List Action) :
    opened (connect c tr).trace = opened tr ++ [c.port] ∧
      (((connect c tr).f.isSome && (connect c tr).ready) = true ↔
        c.attempt = Attempt.connected true) ∧
      (c.attempt = Attempt.connected true → (connect c tr).f = some ⟨c.port⟩) := by
  unfold connect
  cases hc : c.attempt with
  | open_throws e => simp [opened_append, opened]
  | unavailable => simp [opened_append, opened]
  | firmata_throws e => simp [opened_append, opened]
  | connected r => cases r <;> simp [opened_append, opened]

theorem connect_trace (c : Candidate) (tr : List Action) (h : ∀ a ∈ tr, scanAction a = true) :
    ∀ a ∈ (connect c tr).trace, scanAction a = true := by
  unfold connect
  cases c.attempt <;>
  · intro a ha
    simp only [List.mem_append, List.mem_cons, List.mem_singleton, List.not_mem_nil,
      or_false] at ha
    rcases ha with ha | ha
    · exact h a ha
    · rcases ha with rfl | rfl | rfl | rfl | rfl <;> rfl

theorem dropped_spec (sc : Scan) :
    opened (dropped sc).trace = opened sc.trace ∧
      ((sc.f.isSome && sc.ready) = false → ((dropped sc).f.isSome && (dropped sc).ready) = false) ∧
      ((∀ a ∈ sc.trace, scanAction a = true) → ∀ a ∈ (dropped sc).trace, scanAction a = true) := by
  unfold dropped
  split
  · refine ⟨by simp [opened_append, opened], by simp, ?_⟩
    intro h a ha
    simp only [List.mem_append, List.mem_singleton] at ha
    rcases ha with ha | rfl
    · exact h a ha
    · rfl
  · exact ⟨rfl, fun h => h, fun h => h⟩

theorem scanPorts_cons (c : Candidate) (rest : List Candidate) (sc : Scan) :
    scanPorts (c :: rest) sc =
      if containsACM c.port = false then scanPorts rest (dropped sc)
      else if ((connect c (dropped sc).trace).f.isSome && (connect c (dropped sc).trace).ready) = true
        then connect c (dropped sc).trace
        else scanPorts rest (connect c (dropped sc).trace) := by
  simp only [scanPorts, dropped]
  cases containsACM c.port <;> simp

theorem yieldsReady_iff (c : Candidate) :
    yieldsReady c = true ↔ containsACM c.port = true ∧ c.attempt = Attempt.connected true := by
  simp [yieldsReady]

theorem scanPorts_result (ports : List Candidate) :
    ∀ sc : Scan, (sc.f.isSome && sc.ready) = false →
      (∀ c, ports.find? yieldsReady = some c →
        (scanPorts ports sc).f = some ⟨c.port⟩ ∧ (scanPorts ports sc).ready = true) ∧
      (ports.find? yieldsReady = none →
        ((scanPorts ports sc).f.isSome && (scanPorts ports sc).ready) = false) := by
  induction ports with
  | nil => intro sc hsc; simp [scanPorts, hsc]
  | cons c rest ih =>
    intro sc hsc
    rw [scanPorts_cons]
    obtain ⟨_, hrdy, hf⟩ := connect_spec c (dropped sc).trace
    cases hacm : containsACM c.port with
    | false =>
      have hy : yieldsReady c = false := by simp [yieldsReady, hacm]
      simp only [if_true, List.find?_cons, hy]
      exact ih (dropped sc) ((dropped_spec sc).2.1 hsc)
    | true =>
      simp only [Bool.true_eq_false, if_false]
      by_cases hr : c.attempt = Attempt.connected true
      · have hy : yieldsReady c = true := (yieldsReady_iff c).2 ⟨hacm, hr⟩
        have hb := hrdy.2 hr
        rw [if_pos hb]
        simp only [List.find?_cons, hy]
        refine ⟨?_, by simp⟩
        intro c' hc'
        simp only [Option.some.injEq] at hc'
        subst hc'
        refine ⟨hf hr, ?_⟩
        simp only [Bool.and_eq_true] at hb
        exact hb.2
      · have hy : yieldsReady c = false := by
          cases hyc : yieldsReady c with
          | false => rfl
          | true => exact absurd ((yieldsReady_iff c).1 hyc).2 hr
        have hb : ((connect c (dropped sc).trace).f.isSome &&
            (connect c (dropped sc).trace).ready) = false := by
          cases hbb : ((connect c (dropped sc).trace).f.isSome &&
            (connect c (dropped sc).trace).ready) with
          | false => rfl
          | true => exact absurd (hrdy.1 hbb) hr
        rw [if_neg (by simp [hb])]
        simp only [List.find?_cons, hy]
        exact ih _ hb

theorem scanPorts_trace (ports : List Candidate) :
    ∀ sc : Scan, (∀ a ∈ sc.trace, scanAction a = true) →
      ∀ a ∈ (scanPorts ports sc).trace, scanAction a = true := by
  induction ports with
  | nil => intro sc h; simpa [scanPorts] using h
  | cons c rest ih =>
    intro sc h
    rw [scanPorts_cons]
    have hd := (dropped_spec sc).2.2 h
    have hc := connect_trace c (dropped sc).trace hd
    split_ifs
    · exact ih _ hd
    · exact hc
    · exact ih _ hc

/-- How `setup` ends, according to what the scan left in `f`. -/
theorem setup_eq (inv : Invocation) :
    ((((scanPorts inv.ports ⟨none, false, []⟩).f.isSome &&
        (scanPorts inv.ports ⟨none, false, []⟩).ready) = false ∧
      setup inv = Setup.exit 1
        ((scanPorts inv.ports ⟨none, false, []⟩).trace ++ [Action.print_error])) ∨
    (∃ h, (scanPorts inv.ports ⟨none, false, []⟩).f = some h ∧
      (scanPorts inv.ports ⟨none, false, []⟩).ready = true ∧
      setup inv =
        if inv.help then
          Setup.exit 0 ((scanPorts inv.ports ⟨none, false, []⟩).trace ++ [Action.print_usage])
        else if inv.net_empty then
          Setup.exit (-1) ((scanPorts inv.ports ⟨none, false, []⟩).trace ++ [Action.load_failure])
        else if !inv.cap_opened then
          Setup.exit (-1)
            ((scanPorts inv.ports ⟨none, false, []⟩).trace ++ [Action.capture_failure])
        else Setup.enter (scanPorts inv.ports ⟨none, false, []⟩).trace (init h))) := by
  unfold setup
  simp only []
  cases hf : (scanPorts inv.ports ⟨none, false, []⟩).f with
  | none => left; simp
  | some h =>
    cases hr : (scanPorts inv.ports ⟨none, false, []⟩).ready with
    | false => left; simp
    | true => right; exact ⟨h, rfl, rfl, by simp⟩

/-! ## Evaluation at the concrete inputs -/

theorem personRow_qualifies : qualifies (3/5 : ℚ) personRow = true := by
  norm_num [qualifies, confidence, objectClass, probs, max_element, max_element_loop,
    probability_index, PERSON_CLASS, personRow]

theorem wrongClassRow_class : objectClass wrongClassRow = 3 := by
  norm_num [objectClass, probs, max_element, max_element_loop, probability_index, wrongClassRow]

theorem detect_personRow_idle (s : Sys) (h : s.hardware_flag = true) :
    detect (3/5 : ℚ) [personRow] s =
      { s with hardware_flag := false
               workers := s.workers ++ [Task.started]
               trace := s.trace ++ [Action.draw 0, Action.pthread_create] } := by
  simp [detect, detectLoop, processRow, personRow_qualifies, trigger, h]

theorem tryBlock_failAt_zero (e : LinkError) :
    tryBlock (failAt 0 e) = (some e, [Action.setSamplingInterval 100]) := by
  simp [tryBlock, call, failAt]

/-! ## The claims -/

section Claims

variable {α : Type} [LinearOrder α]

/-- C1: a frame processed while the gate is busy (`hardware_flag == false`)
starts no task and leaves the gate busy, whatever its rows, scores and
threshold; so does a whole loop iteration, and so does any sequence of frames:
no `pthread_create` is added to the log. -/
theorem busy_gate_emits_nothing (thr : α) (s : Sys) (hbusy : s.hardware_flag = false) :
    (∀ rows : List (List α),
      (detect thr rows s).hardware_flag = false ∧ (detect thr rows s).workers = s.workers ∧
        requests (detect thr rows s) = requests s) ∧
    (∀ inp : FrameInput α,
      (iteration thr inp s).hardware_flag = false ∧ (iteration thr inp s).workers = s.workers ∧
        requests (iteration thr inp s) = requests s) ∧
    (∀ frames : List (List (List α)),
      (detectAll thr frames s).hardware_flag = false ∧
        (detectAll thr frames s).workers = s.workers ∧
        requests (detectAll thr frames s) = requests s) := by
  refine ⟨?_, ?_, ?_⟩
  · intro rows
    obtain ⟨h1, h2, h3, _⟩ := detectLoop_busy thr rows 0 s hbusy
    exact ⟨h1, h2, h3⟩
  · intro inp
    rcases iteration_eq thr inp s with ⟨_, he⟩ | ⟨rows, ph, _, he⟩
    · rw [he]
      simp [hbusy, requests, List.count_append]
    · rw [he]
      obtain ⟨h1, h2, h3, _⟩ := detectLoop_busy thr rows 0
        { s with trace := s.trace ++ [Action.put_status (!s.hardware_flag)] } hbusy
      refine ⟨h1, h2, ?_⟩
      have h3' : requests (detect thr rows
          { s with trace := s.trace ++ [Action.put_status (!s.hardware_flag)] }) = requests s := by
        rw [show requests s = requests
          { s with trace := s.trace ++ [Action.put_status (!s.hardware_flag)] } by
            simp [requests, List.count_append]]
        exact h3
      simpa [requests, List.count_append] using h3'
  · intro frames
    suffices hgen : ∀ t : Sys, t.hardware_flag = false →
        (detectAll thr frames t).hardware_flag = false ∧
          (detectAll thr frames t).workers = t.workers ∧
          requests (detectAll thr frames t) = requests t from hgen s hbusy
    induction frames with
    | nil => intro t ht; simp [detectAll, ht]
    | cons rows rest ih =>
      intro t ht
      obtain ⟨h1, h2, h3, _⟩ := detectLoop_busy thr rows 0 t ht
      obtain ⟨g1, g2, g3⟩ := ih (detect thr rows t) h1
      simp only [detectAll, List.foldl_cons] at g1 g2 g3 ⊢
      exact ⟨g1, g2.trans h2, g3.trans h3⟩

/-- Witness for C1: 100 consecutive frames, each showing a person with
confidence 0.9, fed to a busy gate at threshold 0.6. -/
theorem busy_gate_emits_nothing_witness :
    busyState.hardware_flag = false ∧
      requests (detectAll (3/5 : ℚ) (List.replicate 100 [personRow]) busyState) = 1 ∧
      (detectAll (3/5 : ℚ) (List.replicate 100 [personRow]) busyState).hardware_flag = false :=
  ⟨rfl, ((busy_gate_emits_nothing (3/5 : ℚ) busyState rfl).2.2 _).2.2,
    ((busy_gate_emits_nothing (3/5 : ℚ) busyState rfl).2.2 _).1⟩

/-- C2: a frame processed while the gate is idle (`hardware_flag == true`) that
contains at least one row whose class id (first index of the maximum class
score) is 14 and whose confidence exceeds the threshold emits exactly one
actuation request (one `pthread_create`, one new task) and ends with the gate
busy, however many rows qualify. -/
theorem idle_gate_triggers_once (thr : α) (rows : List (List α)) (s : Sys)
    (hidle : s.hardware_flag = true) (hq : ∃ row ∈ rows, Qualifying thr row) :
    requests (detect thr rows s) = requests s + 1 ∧
      (detect thr rows s).workers = s.workers ++ [Task.started] ∧
      (detect thr rows s).hardware_flag = false := by
  have hq' : ∃ row ∈ rows, qualifies thr row = true := by
    obtain ⟨row, hrow, hqr⟩ := hq
    exact ⟨row, hrow, (qualifies_iff thr row).2 hqr⟩
  obtain ⟨h1, h2, h3, _⟩ := detectLoop_idle thr rows 0 s hidle hq'
  exact ⟨h3, h2, h1⟩

/-- Witness for C2: three qualifying rows in one frame at threshold 0.6. -/
theorem idle_gate_triggers_once_witness :
    (init acm0).hardware_flag = true ∧
      (∃ row ∈ [personRow, wrongClassRow, personRow, personRow], Qualifying (3/5 : ℚ) row) ∧
      requests (detect (3/5 : ℚ) [personRow, wrongClassRow, personRow, personRow] (init acm0)) =
        requests (init acm0) + 1 ∧
      (detect (3/5 : ℚ) [personRow, wrongClassRow, personRow, personRow] (init acm0)).workers =
        (init acm0).workers ++ [Task.started] ∧
      (detect (3/5 : ℚ) [personRow, wrongClassRow, personRow, personRow]
        (init acm0)).hardware_flag = false :=
  ⟨rfl, ⟨personRow, by simp, (qualifies_iff _ _).1 personRow_qualifies⟩,
    idle_gate_triggers_once (3/5 : ℚ) _ (init acm0) rfl
      ⟨personRow, by simp, (qualifies_iff _ _).1 personRow_qualifies⟩⟩

/-- C3: in every gate state the frame step emits an actuation request only if
some row of the frame has class id 14 and confidence strictly above the
threshold; a frame whose rows all have confidence at most the threshold, or
all have a class id other than 14, leaves the state unchanged. -/
theorem no_trigger_without_qualifying_row (thr : α) (rows : List (List α)) (s : Sys) :
    (requests (detect thr rows s) ≠ requests s → ∃ row ∈ rows, Qualifying thr row) ∧
    ((∀ row ∈ rows, ∀ c, confidence row = some c → c ≤ thr) → detect thr rows s = s) ∧
    ((∀ row ∈ rows, objectClass row ≠ PERSON_CLASS) → detect thr rows s = s) := by
  refine ⟨?_, ?_, ?_⟩
  · intro hne
    by_contra hno
    apply hne
    have hnone : ∀ row ∈ rows, qualifies thr row = false := by
      intro row hrow
      cases hr : qualifies thr row with
      | false => rfl
      | true => exact absurd ⟨row, hrow, (qualifies_iff thr row).1 hr⟩ hno
    rw [show detect thr rows s = s from detectLoop_none thr rows 0 s hnone]
  · intro hall
    apply detectLoop_none
    intro row hrow
    unfold qualifies
    cases hc : confidence row with
    | none => simp
    | some c => simp [not_lt.2 (hall row hrow c hc)]
  · intro hall
    apply detectLoop_none
    intro row hrow
    simp [qualifies, hall row hrow]

/-- Witness for C3: a detection of class 3 with confidence 0.99 at threshold
0.6 changes nothing, in the idle state. -/
theorem no_trigger_without_qualifying_row_witness :
    (∀ row ∈ [wrongClassRow], objectClass row ≠ PERSON_CLASS) ∧
      detect (3/5 : ℚ) [wrongClassRow] (init acm0) = init acm0 :=
  ⟨by simp [wrongClassRow_class, PERSON_CLASS],
    (no_trigger_without_qualifying_row (3/5 : ℚ) [wrongClassRow] (init acm0)).2.2
      (by simp [wrongClassRow_class, PERSON_CLASS])⟩

/-- C4: in every state reachable from the initial state (gate idle, no task)
by any interleaving of loop iterations, worker steps and the shutdown, at most
one task is live, the live tasks are exactly the requests not yet completed,
and the gate is busy if and only if a task is live. -/
theorem single_live_task (thr : α) (s : Sys) (hreach : Reachable thr s) :
    s.workers.length ≤ 1 ∧ s.workers.length + completions s = requests s ∧
      (s.hardware_flag = false ↔ s.workers.length = 1) := by
  obtain ⟨h, evs, hrun⟩ := hreach
  have hinit : GateInv (init h) := by
    simp [GateInv, init, requests, completions]
  exact run_inv thr evs (init h) s hrun hinit

/-- Witness for C4: the state after one frame showing a person. -/
theorem single_live_task_witness :
    Reachable (3/5 : ℚ) (iteration (3/5 : ℚ) (personFrame (-1)) (init acm0)) ∧
      (iteration (3/5 : ℚ) (personFrame (-1)) (init acm0)).workers.length ≤ 1 :=
  ⟨⟨acm0, [Ev.frame (personFrame (-1))], by simp [run, step, init]⟩,
    (single_live_task (3/5 : ℚ) _
      ⟨acm0, [Ev.frame (personFrame (-1))], by simp [run, step, init]⟩).1⟩

/-- C7, the code at the failing input: the state with the handle discarded and
the gate idle is reached when the first call of a task throws and the task then
completes; a frame with a qualifying row in that state emits a request and
starts a task, and the first statement of that task dereferences the null
handle. -/
theorem trigger_on_discarded_handle :
    run (3/5 : ℚ) [Ev.frame (personFrame (-1)), Ev.body 0 (failAt 0 LinkError.IOException),
        Ev.finish 0] (init acm0) = some lostIdle ∧
      lostIdle.f = none ∧ lostIdle.hardware_flag = true ∧
      requests (iteration (3/5 : ℚ) (personFrame (-1)) lostIdle) = requests lostIdle + 1 ∧
      (iteration (3/5 : ℚ) (personFrame (-1)) lostIdle).workers = [Task.started] ∧
      (workerBody healthy 0 (iteration (3/5 : ℚ) (personFrame (-1)) lostIdle)).crashed = true := by
  refine ⟨?_, rfl, rfl, ?_, ?_, ?_⟩
  · simp [run, step, init, iteration, personFrame, detect_personRow_idle, workerBody,
      tryBlock_failAt_zero, workerFinish, lostIdle, SLEEP_TIME]
  · simp [iteration, personFrame, lostIdle, detect_personRow_idle, requests]
  · simp [iteration, personFrame, lostIdle, detect_personRow_idle]
  · simp [iteration, personFrame, lostIdle, detect_personRow_idle, workerBody]

/-- C8, the code at the failing input: the exit key is pressed in the
iteration that started a task; the shutdown deletes the handle first and calls
`pthread_join` last, and the task in flight then runs on the null handle. -/
theorem shutdown_deletes_before_join :
    run (3/5 : ℚ) [Ev.frame (personFrame 27)] (init acm0) = some escPressed ∧
      (shutdown escPressed).trace =
        escPressed.trace ++
          [Action.delete_f, Action.cap_release, Action.destroyAllWindows, Action.pthread_join] ∧
      (shutdown escPressed).f = none ∧
      (workerBody healthy 0 (shutdown escPressed)).crashed = true := by
  refine ⟨?_, ?_, ?_, ?_⟩
  · simp [run, step, init, iteration, personFrame, detect_personRow_idle, escPressed]
  · simp [shutdown, escPressed]
  · simp [shutdown, escPressed]
  · simp [shutdown, escPressed, workerBody]

/-- Counterexample to C10: the help flag is set and the only port listed is
not an ACM port; `main` prints the connection error and returns 1, and the
usage message is not printed. -/
theorem help_exit_counterexample :
    setup ⟨[⟨"/dev/ttyS0", Attempt.connected true⟩], true, false, true⟩ =
      Setup.exit 1 [Action.print_error] := by
  decide

/-- C10, amended: when the help flag is set, `main` prints the usage message
and exits with code 0 provided the startup scan found a port that contains
"ACM" and yields a ready connection; when the scan found none, it exits with
code 1 and the usage message is not printed. -/
theorem help_exit_after_scan (inv : Invocation) (hhelp : inv.help = true) :
    ((∃ c ∈ inv.ports, yieldsReady c = true) →
      ∃ tr, setup inv = Setup.exit 0 (tr ++ [Action.print_usage])) ∧
    ((¬ ∃ c ∈ inv.ports, yieldsReady c = true) →
      ∃ tr, setup inv = Setup.exit 1 tr ∧ Action.print_usage ∉ tr) := by
  have hres := scanPorts_result inv.ports ⟨none, false, []⟩ rfl
  have htr := scanPorts_trace inv.ports ⟨none, false, []⟩ (by simp)
  constructor
  · rintro ⟨c, hc, hy⟩
    have hsome : (inv.ports.find? yieldsReady).isSome = true := by
      rw [List.find?_isSome]
      exact ⟨c, hc, hy⟩
    obtain ⟨c', hc'⟩ := Option.isSome_iff_exists.1 hsome
    obtain ⟨hf, hr⟩ := hres.1 c' hc'
    rcases setup_eq inv with ⟨hb, _⟩ | ⟨h, _, _, he⟩
    · rw [hf, hr] at hb
      simp at hb
    · rw [he, hhelp, if_pos rfl]
      exact ⟨_, rfl⟩
  · intro hno
    have hnone : inv.ports.find? yieldsReady = none := by
      rw [List.find?_eq_none]
      intro c hc hy
      exact hno ⟨c, hc, hy⟩
    have hb := hres.2 hnone
    rcases setup_eq inv with ⟨_, he⟩ | ⟨h, hf, hr, _⟩
    · refine ⟨_, he, ?_⟩
      intro hmem
      simp only [List.mem_append, List.mem_singleton] at hmem
      rcases hmem with hmem | hmem
      · have := htr _ hmem
        simp [scanAction] at this
      · simp at hmem
    · rw [hf, hr] at hb
      simp at hb

/-- Witness for the amended C10: help requested on a machine whose second ACM
device is ready. -/
theorem help_exit_after_scan_witness :
    (∃ c ∈ examplePorts, yieldsReady c = true) ∧
      ∃ tr, setup ⟨examplePorts, true, false, true⟩ = Setup.exit 0 (tr ++ [Action.print_usage]) :=
  ⟨by decide,
    (help_exit_after_scan ⟨examplePorts, true, false, true⟩ rfl).1 (by decide)⟩

end Claims

end PeopleDetector
